import Mathlib

/-!
Shallow embedding of the `llm-agent` repository (src/tool_processor.py,
src/prompt_manager.py, src/agent.py, src/prompts.py, src/tools.py,
src/model_runner.py) for checking its natural-language specification.

Modelling conventions:
* Python strings are Lean `String`s; `len`, slicing, `.strip()` and
  `.lower()` are modelled character-wise over `String.data` (the source is
  exercised on ASCII data; `\w`, `.lower()` and `.strip()` are modelled on
  their ASCII fragment).
* The regular expression `\[(\w+)\]\|\|\|(.*?)\|\|\|` with `re.DOTALL` and
  `re.finditer` is implemented directly: a left-to-right scan, at each
  position a match of `[`, one or more word characters, `]`, `|||`, then a
  non-greedy (earliest) closing `|||`; matching resumes after the end of a
  match.
* External collaborators are parameters, exactly as the spec scopes them:
  `json.loads` success is a `ToolEnv` field, the registry
  `available_functions` is a map from name to a function that either
  returns a string or raises (`Except`), and the two model runners are a
  `Behavior` record (the main runner yields a token list and optionally
  raises afterwards; the feedback runner returns a string).
* Python's mutation of the message list / executed-tools dict is explicit
  state passing.  `Message.isToolOutput` is a ghost field set only by
  `add_tool_output_as_user_message`, used to state the log invariants; it
  has no effect on any behaviour.
-/

namespace LlmAgent

/-! ### Python string primitives -/

/-- Python `str.strip()` whitespace set (ASCII fragment). -/
def isPySpace (c : Char) : Bool :=
  c = ' ' || c = '\t' || c = '\n' || c = '\r' || c = Char.ofNat 11 || c = Char.ofNat 12

/-- Python `str.strip()`. -/
def pyStrip (s : String) : String :=
  String.mk (((s.data.dropWhile isPySpace).reverse.dropWhile isPySpace).reverse)

/-- Python `str.lower()` (character-wise, ASCII fragment). -/
def pyLower (s : String) : String :=
  String.mk (s.data.map Char.toLower)

/-- Python `x[:n] if len(x) > n else x`. -/
def pyTruncate (n : Nat) (s : String) : String :=
  if s.length > n then String.mk (s.data.take n) else s

/-- First index at which `pat` occurs in `s`, scanning from index `i` (Python `str.find`). -/
def findSubAux (pat : List Char) : List Char → Nat → Option Nat
  | [], i => if pat.isPrefixOf ([] : List Char) then some i else none
  | s@(_ :: t), i => if pat.isPrefixOf s then some i else findSubAux pat t (i + 1)

/-- Python `s.find(pat)` (first occurrence, `none` for Python's `-1`). -/
def findSub (s pat : String) : Option Nat :=
  findSubAux pat.data s.data 0

/-- Python `pat in s`. -/
def containsSub (s pat : String) : Bool :=
  (findSub s pat).isSome

/-! ### prompts.py constants -/

def TASK_COMPLETE_TAG : String := "[task_complete]"

def TASK_COMPLETE_DEFAULT_RESULT : String := "Task completed successfully"

def MAX_ITERATIONS_MESSAGE : String := "\nMaximum iterations reached"

def TOOL_OUTPUT_PREFIX : String := " output:\n"

/-! ### tool_processor.py : the scanner -/

/-- ToolCall dataclass of tool_processor.py. -/
structure ToolCall where
  id : String
  name : String
  content : String
  start_pos : Nat
  end_pos : Nat
  output : Option String := none
  executed : Bool := false
deriving Repr, DecidableEq

/-- Raw regex match of `\[(\w+)\]\|\|\|(.*?)\|\|\|`: span and the two groups. -/
structure RawMatch where
  start_pos : Nat
  name : String
  rawContent : String
  end_pos : Nat
deriving Repr, DecidableEq

/-- ASCII fragment of the regex class `\w`. -/
def isWordChar (c : Char) : Bool :=
  c.isAlpha || c.isDigit || c = '_'

/-- Non-greedy search for the closing `|||`: splits off the (earliest-closed)
content and the rest of the input after the closing delimiter. -/
def findClose : List Char → Option (List Char × List Char)
  | '|' :: '|' :: '|' :: rest => some ([], rest)
  | c :: cs =>
      match findClose cs with
      | some (content, rest) => some (c :: content, rest)
      | none => none
  | [] => none

/-- Try to match `\[(\w+)\]\|\|\|(.*?)\|\|\|` at the head of the input;
returns the name characters, the raw content characters, and the rest of
the input after the match. -/
def matchAt : List Char → Option (List Char × List Char × List Char)
  | '[' :: r =>
      let nm := r.takeWhile isWordChar
      if nm.isEmpty then none
      else
        match r.drop nm.length with
        | ']' :: '|' :: '|' :: '|' :: r2 =>
            match findClose r2 with
            | some (content, rest) => some (nm, content, rest)
            | none => none
        | _ => none
  | _ => none

/-- One step of `re.finditer`: scan left to right, resume after each match.
The fuel argument is initialised to the input length and never runs out
(every step consumes at least one character). -/
def scanAux : Nat → Nat → List Char → List RawMatch
  | 0, _, _ => []
  | _ + 1, _, [] => []
  | fuel + 1, pos, c :: cs =>
      match matchAt (c :: cs) with
      | some (nm, content, rest) =>
          { start_pos := pos, name := String.mk nm, rawContent := String.mk content,
            end_pos := pos + (nm.length + content.length + 8) } ::
            scanAux fuel (pos + (nm.length + content.length + 8)) rest
      | none => scanAux fuel (pos + 1) cs

/-- Python `re.finditer(self.tool_pattern, text, re.DOTALL)`. -/
def finditerToolPattern (s : String) : List RawMatch :=
  scanAux s.data.length 0 s.data

/-- The per-offset id `f"tool_{start_pos}"`. -/
def toolId (start_pos : Nat) : String :=
  "tool_" ++ toString start_pos

/-- The `executed_tools` dict, keyed by tool id. -/
abbrev ExecutedTable := List (String × ToolCall)

/-- Python `tool_id in self.executed_tools`. -/
def hasKey (t : ExecutedTable) (k : String) : Bool :=
  t.any (fun p => p.1 == k)

/-- ToolProcessor.find_unexecuted_tool_calls. -/
def find_unexecuted_tool_calls (executed : ExecutedTable) (text : String) : List ToolCall :=
  (finditerToolPattern text).filterMap fun m =>
    if hasKey executed (toolId m.start_pos) then none
    else some { id := toolId m.start_pos, name := m.name, content := pyStrip m.rawContent,
                start_pos := m.start_pos, end_pos := m.end_pos }

/-! ### tool_processor.py : execution -/

/-- The argument object passed to a registered function: either the splatted
JSON object parsed from the content, or the fallback `command` / `code`
single-argument forms. -/
inductive CallArgs where
  | jsonArgs (raw : String)
  | cmdArg (command : String)
  | codeArg (code : String)
deriving Repr, DecidableEq

/-- Environment of external collaborators of `execute_tool`: whether
`json.loads` succeeds on a given content string. -/
structure ToolEnv where
  jsonParse : String → Bool

/-- The `available_functions` registry: a registered function receives the
resolved arguments and returns its string output or raises (`Except.error`). -/
abbrev Tools := String → Option (CallArgs → Except String String)

/-- The argument-resolution block of `execute_tool` (JSON attempt, then the
`shell` / `run_python` plain-string fallbacks, else the `ValueError`). -/
def resolveArgs (env : ToolEnv) (name content : String) : Except String CallArgs :=
  if env.jsonParse content then Except.ok (CallArgs.jsonArgs content)
  else if name = "shell" then Except.ok (CallArgs.cmdArg content)
  else if name = "run_python" then Except.ok (CallArgs.codeArg content)
  else Except.error "Content must be valid JSON for this tool"

/-- ToolProcessor.execute_tool. -/
def execute_tool (env : ToolEnv) (avail : Tools) (tc : ToolCall) : String :=
  match avail tc.name with
  | some f =>
      match resolveArgs env tc.name tc.content with
      | Except.ok args =>
          match f args with
          | Except.ok output =>
              let output_str := if output = "" then "no output" else pyStrip output
              "<<< " ++ pyTruncate 1000 output_str ++ " >>>"
          | Except.error e =>
              let error_message := "Error executing tool " ++ tc.name ++ ": " ++ e
              "<<< " ++ pyTruncate 1000 error_message ++ " >>>"
      | Except.error m =>
          let error_message := "Error executing tool " ++ tc.name ++ ": " ++ m
          "<<< " ++ pyTruncate 1000 error_message ++ " >>>"
  | none =>
      let error_message := "Error: Function " ++ tc.name ++ " not found"
      "<<< " ++ pyTruncate 1000 error_message ++ " >>>"

/-- ToolProcessor.process_text; the executed-tools dict is passed and
returned explicitly. -/
def process_text (env : ToolEnv) (avail : Tools) (executed : ExecutedTable) (text : String) :
    ExecutedTable × String × Bool × Option ToolCall :=
  match find_unexecuted_tool_calls executed text with
  | [] => (executed, text, false, none)
  | tool_call :: _ =>
      let output := execute_tool env avail tool_call
      let tc := { tool_call with output := some output, executed := true }
      ((tc.id, tc) :: executed,
       text ++ "\n" ++ tool_call.name ++ " output:\n" ++ output,
       true, some tc)

/-! ### prompt_manager.py -/

/-- One entry of the message log.  `completed` models `m.get('completed',
False)` (user and system entries never carry the key; the default `false`
is what every read of it observes).  `isToolOutput` is a ghost field set
only by `add_tool_output_as_user_message`; it does not influence any
operation. -/
structure Message where
  role : String
  content : String
  completed : Bool := false
  isToolOutput : Bool := false
deriving Repr, DecidableEq

/-- A fresh in-progress assistant entry. -/
def mkAssistant (t : String) : Message :=
  { role := "assistant", content := t }

/-- Whether any entry of the list is an assistant entry. -/
def anyAssistant (l : List Message) : Bool :=
  l.any (fun m => m.role == "assistant")

/-- PromptManager.append_assistant_content: if the last assistant entry of
the log (wherever it sits) is not completed, its content is extended in
place; otherwise a new incomplete assistant entry is appended at the end. -/
def append_assistant_content (t : String) : List Message → List Message
  | [] => [mkAssistant t]
  | m :: rest =>
      if m.role == "assistant" && !anyAssistant rest then
        if !m.completed then { m with content := m.content ++ t } :: rest
        else m :: (rest ++ [mkAssistant t])
      else m :: append_assistant_content t rest

/-- PromptManager.complete_current_assistant. -/
def complete_current_assistant : List Message → List Message
  | [] => []
  | m :: rest =>
      if m.role == "assistant" && !anyAssistant rest then
        (if !m.completed then { m with completed := true } else m) :: rest
      else m :: complete_current_assistant rest

/-- PromptManager.add_tool_output_as_user_message. -/
def add_tool_output_as_user_message (name output : String) (msgs : List Message) :
    List Message :=
  msgs ++ [{ role := "user", content := name ++ TOOL_OUTPUT_PREFIX ++ output,
             isToolOutput := true }]

/-- PromptManager.add_feedback_as_user_message. -/
def add_feedback_as_user_message (feedback : String) (msgs : List Message) : List Message :=
  msgs ++ [{ role := "user", content := feedback }]

/-- PromptManager.add_user_instruction. -/
def add_user_instruction (content : String) (msgs : List Message) : List Message :=
  msgs ++ [{ role := "user", content := content }]

/-- The single system message seeded at construction.  Its content (tools
intro, serialized catalog, formatting rubric) is opaque to every claim, so
it is a parameter. -/
def systemMessage (sysContent : String) : Message :=
  { role := "system", content := sysContent }

/-! ### agent.py -/

/-- TaskAgent.should_continue. -/
def should_continue (max_iterations : Nat) (content : String) : Bool :=
  !containsSub (pyLower content) TASK_COMPLETE_TAG && decide (0 < max_iterations)

/-- Python `[m for m in messages if m['role'] == 'assistant']`, last element. -/
def lastAssistant (msgs : List Message) : Option Message :=
  (msgs.filter (fun m => m.role == "assistant")).getLast?

/-- Python `messages[-1]['content']` (the agent only evaluates it on non-empty logs). -/
def lastContent (msgs : List Message) : String :=
  ((msgs.getLast?).map Message.content).getD ""

/-- TaskAgent.check_completion.  Python's `find` returns `-1` on a miss;
the slice index `idx + len(tag)` is then still non-negative, which the
`Int.toNat` reproduces. -/
def check_completion (max_iterations : Nat) (msgs : List Message) : Option String :=
  match lastAssistant msgs with
  | none => none
  | some m =>
      if should_continue max_iterations m.content then none
      else
        let idx : Int :=
          match findSub (pyLower m.content) TASK_COMPLETE_TAG with
          | some i => (i : Int)
          | none => -1
        let res := pyStrip (String.mk (m.content.data.drop
          (idx + (TASK_COMPLETE_TAG.length : Int)).toNat))
        some (if res = "" then TASK_COMPLETE_DEFAULT_RESULT else res)

/-- Mutable state the agent threads through an iteration: the prompt
manager's message log and the tool processor's executed-tools dict. -/
structure AgentState where
  messages : List Message
  executed : ExecutedTable
deriving Repr, DecidableEq

/-- The two model runners, abstracted by their contract: per iteration the
main runner yields a finite token list and then either finishes or raises
(with the given message); the feedback runner maps a message log to its
collected response. -/
structure Behavior where
  gen : Nat → List Message → List String × Option String
  feedback : List Message → String

/-- TaskAgent.process_tool_call (the prints are I/O only). -/
def process_tool_call (beh : Behavior) (tool_call : ToolCall) (tool_call_text : String)
    (msgs : List Message) : List Message :=
  let m1 := append_assistant_content tool_call_text msgs
  let m2 := complete_current_assistant m1
  let m3 := add_tool_output_as_user_message tool_call.name (tool_call.output.getD "") m2
  let fb := beh.feedback m3
  add_feedback_as_user_message fb m3

/-- TaskAgent.handle_generation_output.  Note the source passes the original
`token_buffer` (not the updated buffer returned by `process_text`) to
`process_tool_call`. -/
def handle_generation_output (env : ToolEnv) (avail : Tools) (beh : Behavior)
    (st : AgentState) (token_buffer : String) : AgentState × Bool × String :=
  let r := process_text env avail st.executed token_buffer
  if r.2.2.1 then
    match r.2.2.2 with
    | some tc =>
        ({ messages := process_tool_call beh tc token_buffer st.messages, executed := r.1 },
         true, "")
    | none => ({ messages := st.messages, executed := r.1 }, false, token_buffer)
  else ({ messages := st.messages, executed := r.1 }, false, token_buffer)

/-- The `for token in ...generate_tokens(...)` loop of
TaskAgent.process_iteration: append each token to the buffer, re-scan, and
stop as soon as a tool call was processed (the rest of the stream is
abandoned).  Returns the state, the remaining buffer, and whether a tool
was processed mid-stream. -/
def streamLoop (env : ToolEnv) (avail : Tools) (beh : Behavior) :
    List String → AgentState → String → AgentState × String × Bool
  | [], st, buf => (st, buf, false)
  | token :: ts, st, buf =>
      let h := handle_generation_output env avail beh st (buf ++ token)
      if h.2.1 then (h.1, h.2.2, true)
      else streamLoop env avail beh ts h.1 h.2.2

/-- TaskAgent.handle_error: synthesize the assistant error continuation,
complete the turn, collect feedback, append it as a user message, and
return `messages[-1]['content']`. -/
def handle_error (beh : Behavior) (emsg : String) (st : AgentState) : AgentState × String :=
  let error_msg := "\nError during execution: " ++ emsg
  let m1 := append_assistant_content error_msg st.messages
  let m2 := complete_current_assistant m1
  let fb := beh.feedback m2
  let m3 := add_feedback_as_user_message fb m2
  ({ messages := m3, executed := st.executed }, lastContent m3)

/-- The three values TaskAgent.process_iteration can produce: Python
`None`, Python `False` (the mid-stream tool-processing return), or a
string. -/
inductive IterOutcome where
  | noneV
  | falseV
  | strV (s : String)
deriving Repr, DecidableEq

/-- TaskAgent.process_iteration.  An exception of the main runner fires
after the yielded tokens were already consumed; a tool processed mid-stream
abandons the rest of the stream (and any pending exception). -/
def process_iteration (env : ToolEnv) (avail : Tools) (beh : Behavior)
    (max_iterations iteration : Nat) (st : AgentState) : AgentState × IterOutcome :=
  let g := beh.gen iteration st.messages
  let sl := streamLoop env avail beh g.1 st ""
  if sl.2.2 then (sl.1, IterOutcome.falseV)
  else
    match g.2 with
    | some emsg =>
        let he := handle_error beh emsg sl.1
        (he.1, IterOutcome.strV he.2)
    | none =>
        let h := handle_generation_output env avail beh sl.1 sl.2.1
        let st3 :=
          if !h.2.1 && h.2.2 != "" then
            { messages := append_assistant_content h.2.2 h.1.messages, executed := h.1.executed }
          else h.1
        match check_completion max_iterations st3.messages with
        | some r => (st3, IterOutcome.strV r)
        | none => (st3, IterOutcome.noneV)

/-- What TaskAgent.run can return: Python `False` (forwarded from
process_iteration) or a string. -/
inductive RunResult where
  | falseRes
  | strRes (s : String)
deriving Repr, DecidableEq

/-- The code after the while loop of TaskAgent.run (the iteration cap). -/
def capBranch (st : AgentState) : AgentState × RunResult × Nat × Bool :=
  let m2 := complete_current_assistant (append_assistant_content MAX_ITERATIONS_MESSAGE st.messages)
  ({ messages := m2, executed := st.executed }, RunResult.strRes (lastContent m2), 0, true)

/-- The while loop of TaskAgent.run.  `fuel` is `max_iterations -
iteration` (so the loop guard `iteration < max_iterations` is `fuel > 0`);
besides the state and result the embedding also returns the number of
iterations executed and whether the cap branch ran, both ghost
instrumentation. -/
def runLoop (env : ToolEnv) (avail : Tools) (beh : Behavior) (max_iterations : Nat) :
    Nat → Nat → AgentState → AgentState × RunResult × Nat × Bool
  | 0, _, st => capBranch st
  | fuel + 1, iteration, st =>
      let p := process_iteration env avail beh max_iterations (iteration + 1) st
      match p.2 with
      | IterOutcome.noneV =>
          let r := runLoop env avail beh max_iterations fuel (iteration + 1) p.1
          (r.1, r.2.1, r.2.2.1 + 1, r.2.2.2)
      | IterOutcome.falseV => (p.1, RunResult.falseRes, 1, false)
      | IterOutcome.strV s => (p.1, RunResult.strRes s, 1, false)

/-- The log and processor state right after `TaskAgent.__init__` and
`add_user_message`. -/
def initialState (sysContent instruction : String) : AgentState :=
  { messages := add_user_instruction instruction [systemMessage sysContent], executed := [] }

/-- TaskAgent.run from a fresh agent. -/
def run (env : ToolEnv) (avail : Tools) (beh : Behavior) (max_iterations : Nat)
    (sysContent instruction : String) : AgentState × RunResult × Nat × Bool :=
  runLoop env avail beh max_iterations max_iterations 0 (initialState sysContent instruction)

/-! ### Log invariants (spec section 8.3) -/

/-- An incomplete assistant entry. -/
def incA (m : Message) : Bool :=
  m.role == "assistant" && !m.completed

/-- A completed assistant entry. -/
def compA (m : Message) : Bool :=
  m.role == "assistant" && m.completed

/-- Every entry except possibly the final one is not an incomplete
assistant: an in-progress assistant turn can only sit at the very end of
the log. -/
def tailInv (msgs : List Message) : Prop :=
  ∀ m ∈ msgs.dropLast, incA m = false

/-- No incomplete assistant entry at all. -/
def noInc (msgs : List Message) : Prop :=
  ∀ m ∈ msgs, incA m = false

/-- Every tool-output user message is strictly preceded by a completed
assistant entry; `seen` records whether a completed assistant occurred
before the current position. -/
def toolPrecB (seen : Bool) : List Message → Bool
  | [] => true
  | m :: rest => (!m.isToolOutput || seen) && toolPrecB (seen || compA m) rest

/-- The message logs reachable through the agent's operations: seeding,
the initial user instruction, in-stream assistant appends, turn
completion, and the exact composite sequences of message operations
performed by TaskAgent.process_tool_call and TaskAgent.handle_error
(including their intermediate states). -/
inductive Reachable : List Message → Prop
  | init (sys : String) : Reachable [systemMessage sys]
  | instruct (sys c : String) : Reachable (add_user_instruction c [systemMessage sys])
  | appendStep (t : String) {m : List Message} : Reachable m →
      Reachable (append_assistant_content t m)
  | completeStep {m : List Message} : Reachable m →
      Reachable (complete_current_assistant m)
  | toolOut (n o b : String) {m : List Message} : Reachable m →
      Reachable (add_tool_output_as_user_message n o
        (complete_current_assistant (append_assistant_content b m)))
  | toolFb (f n o b : String) {m : List Message} : Reachable m →
      Reachable (add_feedback_as_user_message f (add_tool_output_as_user_message n o
        (complete_current_assistant (append_assistant_content b m))))
  | errFb (f e : String) {m : List Message} : Reachable m →
      Reachable (add_feedback_as_user_message f
        (complete_current_assistant (append_assistant_content e m)))

/-! ### Concrete instantiations used by witnesses and counterexamples -/

/-- Environment in which `json.loads` fails on every content (true for all
the plain-string contents exercised below). -/
def envF : ToolEnv := { jsonParse := fun _ => false }

/-- An empty tool registry. -/
def availNone : Tools := fun _ => none

/-- A shell runner that answers `hi` to `echo hi` (the spec scenario). -/
def shellHi : CallArgs → Except String String
  | CallArgs.cmdArg c => if c = "echo hi" then Except.ok "hi" else Except.ok "ok"
  | _ => Except.ok "ok"

/-- Registry with only the `shell` tool, interpreted by `shellHi`. -/
def availShellHi : Tools :=
  fun n => if n = "shell" then some shellHi else none

/-- Registry whose `shell` tool returns `out` on every input. -/
def availShellOut : Tools :=
  fun n => if n = "shell" then some (fun _ => Except.ok "out") else none

/-- Model behavior: empty stream, no exception; feedback critic answers `FB`. -/
def behFB : Behavior := { gen := fun _ _ => ([], none), feedback := fun _ => "FB" }

/-- Model behavior: the main runner raises `boom` before yielding a token;
feedback critic answers `FB`. -/
def behBoom : Behavior := { gen := fun _ _ => ([], some "boom"), feedback := fun _ => "FB" }

/-- A concrete tool call (as scanned from `[shell]|||echo hi|||`). -/
def tcDemo : ToolCall :=
  { id := "tool_0", name := "shell", content := "echo hi", start_pos := 0, end_pos := 20 }

/-- The tool call scanned from `x [shell]|||echo hi||| y` (marker starts at
offset 2 and spans 20 characters). -/
def c5demo : ToolCall :=
  { id := "tool_2", name := "shell", content := "echo hi", start_pos := 2, end_pos := 22 }

/-- A concrete log produced by the agent's tool cycle on top of the seeded
conversation. -/
def c8demoLog : List Message :=
  add_feedback_as_user_message "FB" (add_tool_output_as_user_message "shell" "<<< hi >>>"
    (complete_current_assistant (append_assistant_content "okay"
      (add_user_instruction "task" [systemMessage "S"]))))

/-! ### Helper lemmas -/

theorem role_system_ne : (("system" : String) == "assistant") = false := by decide

theorem role_user_ne : (("user" : String) == "assistant") = false := by decide

theorem incA_system (c : String) : incA (systemMessage c) = false := by
  simp [incA, systemMessage, role_system_ne]

theorem incA_user (c : String) (tflag : Bool) :
    incA { role := "user", content := c, isToolOutput := tflag } = false := by
  simp [incA, role_user_ne]

theorem incA_mkAssistant (t : String) : incA (mkAssistant t) = true := by
  simp [incA, mkAssistant]

theorem anyAssistant_eq_false {l : List Message} :
    anyAssistant l = false ↔ ∀ x ∈ l, (x.role == "assistant") = false := by
  simp [anyAssistant, List.any_eq_false]

theorem anyAssistant_concat_true {l : List Message} {a : Message}
    (ha : (a.role == "assistant") = true) : anyAssistant (l ++ [a]) = true := by
  simp [anyAssistant, List.any_append, List.any_cons, ha]

theorem tailInv_nil : tailInv [] := by simp [tailInv]

theorem tailInv_single (m : Message) : tailInv [m] := by simp [tailInv]

theorem noInc_tailInv {m : List Message} (h : noInc m) : tailInv m := by
  intro x hx
  exact h x (List.dropLast_subset m hx)

theorem tailInv_concat {xs : List Message} {a : Message}
    (h : ∀ x ∈ xs, incA x = false) : tailInv (xs ++ [a]) := by
  intro x hx
  rw [List.dropLast_concat] at hx
  exact h x hx

theorem tailInv_concat_left {xs : List Message} {a : Message}
    (h : tailInv (xs ++ [a])) : ∀ x ∈ xs, incA x = false := by
  intro x hx
  exact h x (by rw [List.dropLast_concat]; exact hx)

theorem noInc_concat {m : List Message} {msg : Message} (h : noInc m)
    (hmsg : incA msg = false) : noInc (m ++ [msg]) := by
  intro x hx
  rcases List.mem_append.mp hx with hx | hx
  · exact h x hx
  · rcases List.mem_singleton.mp hx with rfl
    exact hmsg

/-- A log satisfying `tailInv` either ends in an incomplete assistant entry
or has no incomplete assistant entry at all. -/
theorem tailInv_cases {m : List Message} (h : tailInv m) :
    (∃ xs a, m = xs ++ [a] ∧ incA a = true ∧ ∀ x ∈ xs, incA x = false) ∨ noInc m := by
  by_cases hni : noInc m
  · exact Or.inr hni
  · left
    simp only [noInc] at hni
    push_neg at hni
    obtain ⟨x, hxm, hx⟩ := hni
    have hne : m ≠ [] := by rintro rfl; simp at hxm
    refine ⟨m.dropLast, m.getLast hne, (List.dropLast_append_getLast hne).symm, ?_, h⟩
    have : x ∈ m.dropLast ++ [m.getLast hne] := by
      rw [List.dropLast_append_getLast hne]; exact hxm
    rcases List.mem_append.mp this with hx' | hx'
    · exact absurd (h x hx') hx
    · rcases List.mem_singleton.mp hx' with rfl
      exact eq_true_of_ne_false hx

theorem incA_fields {a : Message} (ha : incA a = true) :
    a.role = "assistant" ∧ a.completed = false := by
  simpa [incA, Bool.and_eq_true] using ha

theorem append_concat_inc (t : String) : ∀ (xs : List Message) (a : Message),
    incA a = true →
    append_assistant_content t (xs ++ [a]) = xs ++ [{ a with content := a.content ++ t }]
  | [], a, ha => by
      have h := incA_fields ha
      have hrole : (a.role == "assistant") = true := beq_iff_eq.mpr h.1
      have hcomp : (!a.completed) = true := by simp [h.2]
      simp [append_assistant_content, anyAssistant, hrole, hcomp]
  | x :: xs, a, ha => by
      have hrole : (a.role == "assistant") = true := beq_iff_eq.mpr (incA_fields ha).1
      have hany : anyAssistant (xs ++ [a]) = true := anyAssistant_concat_true hrole
      show append_assistant_content t (x :: (xs ++ [a])) = x :: (xs ++ [_])
      rw [append_assistant_content]
      simp only [hany, Bool.not_true, Bool.and_false]
      rw [append_concat_inc t xs a ha]
      simp

theorem complete_concat_inc : ∀ (xs : List Message) (a : Message),
    incA a = true →
    complete_current_assistant (xs ++ [a]) = xs ++ [{ a with completed := true }]
  | [], a, ha => by
      have h := incA_fields ha
      have hrole : (a.role == "assistant") = true := beq_iff_eq.mpr h.1
      have hcomp : (!a.completed) = true := by simp [h.2]
      simp [complete_current_assistant, anyAssistant, hrole, hcomp]
  | x :: xs, a, ha => by
      have hrole : (a.role == "assistant") = true := beq_iff_eq.mpr (incA_fields ha).1
      have hany : anyAssistant (xs ++ [a]) = true := anyAssistant_concat_true hrole
      show complete_current_assistant (x :: (xs ++ [a])) = x :: (xs ++ [_])
      rw [complete_current_assistant]
      simp only [hany, Bool.not_true, Bool.and_false]
      rw [complete_concat_inc xs a ha]
      simp

theorem append_noInc (t : String) : ∀ (m : List Message), noInc m →
    append_assistant_content t m = m ++ [mkAssistant t]
  | [], _ => by simp [append_assistant_content]
  | m0 :: rest, h => by
      have h0 : incA m0 = false := h m0 (List.mem_cons_self m0 rest)
      have hrest : noInc rest := fun x hx => h x (List.mem_cons_of_mem m0 hx)
      rw [append_assistant_content]
      by_cases hc : (m0.role == "assistant" && !anyAssistant rest) = true
      · have hrole : (m0.role == "assistant") = true := (Bool.and_eq_true _ _ |>.mp hc).1
        have hcomp : m0.completed = true := by
          simp [incA, hrole] at h0; exact h0
        simp [hc, hcomp]
      · simp only [Bool.not_eq_true] at hc
        simp [hc, append_noInc t rest hrest]

theorem complete_noInc : ∀ (m : List Message), noInc m →
    complete_current_assistant m = m
  | [], _ => by simp [complete_current_assistant]
  | m0 :: rest, h => by
      have h0 : incA m0 = false := h m0 (List.mem_cons_self m0 rest)
      have hrest : noInc rest := fun x hx => h x (List.mem_cons_of_mem m0 hx)
      rw [complete_current_assistant]
      by_cases hc : (m0.role == "assistant" && !anyAssistant rest) = true
      · have hrole : (m0.role == "assistant") = true := (Bool.and_eq_true _ _ |>.mp hc).1
        have hcomp : m0.completed = true := by
          simp [incA, hrole] at h0; exact h0
        simp [hc, hcomp]
      · simp only [Bool.not_eq_true] at hc
        simp [hc, complete_noInc rest hrest]

/-- Characterization of `append_assistant_content` on well-formed logs. -/
theorem append_char (t : String) {m : List Message} (h : tailInv m) :
    (∃ xs a, m = xs ++ [a] ∧ incA a = true ∧
       append_assistant_content t m = xs ++ [{ a with content := a.content ++ t }]) ∨
    (noInc m ∧ append_assistant_content t m = m ++ [mkAssistant t]) := by
  rcases tailInv_cases h with ⟨xs, a, rfl, ha, _⟩ | hni
  · exact Or.inl ⟨xs, a, rfl, ha, append_concat_inc t xs a ha⟩
  · exact Or.inr ⟨hni, append_noInc t m hni⟩

/-- Characterization of `complete_current_assistant` on well-formed logs. -/
theorem complete_char {m : List Message} (h : tailInv m) :
    (∃ xs a, m = xs ++ [a] ∧ incA a = true ∧
       complete_current_assistant m = xs ++ [{ a with completed := true }]) ∨
    (noInc m ∧ complete_current_assistant m = m) := by
  rcases tailInv_cases h with ⟨xs, a, rfl, ha, _⟩ | hni
  · exact Or.inl ⟨xs, a, rfl, ha, complete_concat_inc xs a ha⟩
  · exact Or.inr ⟨hni, complete_noInc m hni⟩

theorem incA_content_update (a : Message) (t : String) :
    incA { a with content := t } = incA a := by simp [incA]

/-- Completing after appending always ends the log in a completed
assistant entry, with no incomplete assistant anywhere. -/
theorem CA_shape (t : String) {m : List Message} (h : tailInv m) :
    ∃ xs a, complete_current_assistant (append_assistant_content t m) = xs ++ [a] ∧
      (∀ x ∈ xs, incA x = false) ∧ incA a = false ∧ compA a = true := by
  rcases append_char t h with ⟨xs, a, rfl, ha, happ⟩ | ⟨hni, happ⟩
  · rw [happ]
    have ha' : incA { a with content := a.content ++ t } = true := by
      rw [incA_content_update]; exact ha
    rw [complete_concat_inc xs _ ha']
    have hrole : a.role = "assistant" := (incA_fields ha).1
    exact ⟨xs, _, rfl, tailInv_concat_left h, by simp [incA], by simp [compA, hrole]⟩
  · rw [happ]
    rw [complete_concat_inc m _ (incA_mkAssistant t)]
    exact ⟨m, _, rfl, hni, by simp [incA, mkAssistant], by simp [compA, mkAssistant]⟩

theorem noInc_CA (t : String) {m : List Message} (h : tailInv m) :
    noInc (complete_current_assistant (append_assistant_content t m)) := by
  obtain ⟨xs, a, heq, hxs, hainc, _⟩ := CA_shape t h
  rw [heq]
  exact noInc_concat hxs hainc

theorem anyCompA_CA (t : String) {m : List Message} (h : tailInv m) :
    (complete_current_assistant (append_assistant_content t m)).any compA = true := by
  obtain ⟨xs, a, heq, _, _, hacomp⟩ := CA_shape t h
  rw [heq]
  simp [List.any_append, List.any_cons, hacomp]

theorem tailInv_append_op (t : String) {m : List Message} (h : tailInv m) :
    tailInv (append_assistant_content t m) := by
  rcases append_char t h with ⟨xs, a, rfl, _, happ⟩ | ⟨hni, happ⟩
  · rw [happ]; exact tailInv_concat (tailInv_concat_left h)
  · rw [happ]; exact tailInv_concat hni

theorem tailInv_complete_op {m : List Message} (h : tailInv m) :
    tailInv (complete_current_assistant m) := by
  rcases complete_char h with ⟨xs, a, rfl, _, happ⟩ | ⟨_, happ⟩
  · rw [happ]; exact tailInv_concat (tailInv_concat_left h)
  · rw [happ]; exact h

/-- Computation rule for `toolPrecB` over a snoc. -/
theorem tp_concat (m : Message) : ∀ (l : List Message) (s : Bool),
    toolPrecB s (l ++ [m]) = (toolPrecB s l && (!m.isToolOutput || s || l.any compA))
  | [], s => by
      simp [toolPrecB]
  | x :: l, s => by
      show ((!x.isToolOutput || s) && toolPrecB (s || compA x) (l ++ [m])) =
        (((!x.isToolOutput || s) && toolPrecB (s || compA x) l) &&
          (!m.isToolOutput || s || (compA x || l.any compA)))
      rw [tp_concat m l (s || compA x)]
      cases hb : toolPrecB (s || compA x) l <;>
        cases x.isToolOutput <;> cases s <;> cases compA x <;>
        cases m.isToolOutput <;> cases l.any compA <;> simp

theorem tp_update_last {xs : List Message} {a a' : Message}
    (hflag : a'.isToolOutput = a.isToolOutput)
    (h : toolPrecB false (xs ++ [a]) = true) :
    toolPrecB false (xs ++ [a']) = true := by
  rw [tp_concat] at h ⊢
  rw [hflag]
  exact h

theorem tp_snoc_nontool {m : List Message} {msg : Message}
    (h : toolPrecB false m = true) (hmsg : msg.isToolOutput = false) :
    toolPrecB false (m ++ [msg]) = true := by
  rw [tp_concat, hmsg]
  simp [h]

theorem tp_snoc_tool {m : List Message} {msg : Message}
    (h : toolPrecB false m = true) (hany : m.any compA = true) :
    toolPrecB false (m ++ [msg]) = true := by
  rw [tp_concat, hany]
  simp [h]

theorem tp_append_op (t : String) {m : List Message} (h : tailInv m)
    (htp : toolPrecB false m = true) :
    toolPrecB false (append_assistant_content t m) = true := by
  rcases append_char t h with ⟨xs, a, rfl, _, happ⟩ | ⟨_, happ⟩
  · rw [happ]; exact tp_update_last (by simp) htp
  · rw [happ]; exact tp_snoc_nontool htp (by simp [mkAssistant])

theorem tp_complete_op {m : List Message} (h : tailInv m)
    (htp : toolPrecB false m = true) :
    toolPrecB false (complete_current_assistant m) = true := by
  rcases complete_char h with ⟨xs, a, rfl, _, happ⟩ | ⟨_, happ⟩
  · rw [happ]; exact tp_update_last (by simp) htp
  · rw [happ]; exact htp

theorem tp_CA (t : String) {m : List Message} (h : tailInv m)
    (htp : toolPrecB false m = true) :
    toolPrecB false (complete_current_assistant (append_assistant_content t m)) = true :=
  tp_complete_op (tailInv_append_op t h) (tp_append_op t h htp)

/-- Both invariants hold on every reachable log. -/
theorem reachable_inv {msgs : List Message} (h : Reachable msgs) :
    tailInv msgs ∧ toolPrecB false msgs = true := by
  induction h with
  | init sys =>
      exact ⟨tailInv_single _, by simp [toolPrecB, systemMessage]⟩
  | instruct sys c =>
      constructor
      · intro x hx
        simp [add_user_instruction, List.dropLast] at hx
        rw [hx]
        exact incA_system sys
      · simp [add_user_instruction, toolPrecB, systemMessage]
  | appendStep t _ ih =>
      exact ⟨tailInv_append_op t ih.1, tp_append_op t ih.1 ih.2⟩
  | completeStep _ ih =>
      exact ⟨tailInv_complete_op ih.1, tp_complete_op ih.1 ih.2⟩
  | toolOut n o b _ ih =>
      have hno := noInc_CA b ih.1
      have hany := anyCompA_CA b ih.1
      have htp := tp_CA b ih.1 ih.2
      constructor
      · exact noInc_tailInv (noInc_concat hno (incA_user _ _))
      · exact tp_snoc_tool htp hany
  | toolFb f n o b _ ih =>
      have hno := noInc_CA b ih.1
      have hany := anyCompA_CA b ih.1
      have htp := tp_CA b ih.1 ih.2
      have hno2 : noInc (add_tool_output_as_user_message n o
          (complete_current_assistant (append_assistant_content b _))) :=
        noInc_concat hno (incA_user _ _)
      have htp2 : toolPrecB false (add_tool_output_as_user_message n o
          (complete_current_assistant (append_assistant_content b _))) = true :=
        tp_snoc_tool htp hany
      constructor
      · exact noInc_tailInv (noInc_concat hno2 (incA_user _ _))
      · exact tp_snoc_nontool htp2 (by simp [add_feedback_as_user_message])
  | errFb f e _ ih =>
      have hno := noInc_CA e ih.1
      have htp := tp_CA e ih.1 ih.2
      constructor
      · exact noInc_tailInv (noInc_concat hno (incA_user _ _))
      · exact tp_snoc_nontool htp (by simp [add_feedback_as_user_message])

theorem lastContent_concat (l : List Message) (a : Message) :
    lastContent (l ++ [a]) = a.content := by
  simp [lastContent, List.getLast?_concat]

theorem lastContent_add_feedback (f : String) (m : List Message) :
    lastContent (add_feedback_as_user_message f m) = f := by
  unfold add_feedback_as_user_message
  rw [lastContent_concat]

theorem noInc_ptc (beh : Behavior) (tc : ToolCall) (txt : String) {msgs : List Message}
    (h : tailInv msgs) : noInc (process_tool_call beh tc txt msgs) := by
  show noInc (add_feedback_as_user_message _ (add_tool_output_as_user_message _ _
    (complete_current_assistant (append_assistant_content txt msgs))))
  unfold add_feedback_as_user_message add_tool_output_as_user_message
  exact noInc_concat (noInc_concat (noInc_CA txt h) (incA_user _ _)) (incA_user _ _)

theorem tailInv_hgo (env : ToolEnv) (avail : Tools) (beh : Behavior) (st : AgentState)
    (buf : String) (h : tailInv st.messages) :
    tailInv (handle_generation_output env avail beh st buf).1.messages := by
  simp only [handle_generation_output]
  by_cases hb : (process_text env avail st.executed buf).2.2.1 = true
  · rw [if_pos hb]
    cases hc : (process_text env avail st.executed buf).2.2.2 with
    | some tc => simp only [hc]; exact noInc_tailInv (noInc_ptc beh tc buf h)
    | none => simp only [hc]; exact h
  · rw [if_neg hb]; exact h

theorem tailInv_streamLoop (env : ToolEnv) (avail : Tools) (beh : Behavior) :
    ∀ (ts : List String) (st : AgentState) (buf : String),
    tailInv st.messages → tailInv (streamLoop env avail beh ts st buf).1.messages
  | [], _, _, h => h
  | token :: ts, st, buf, h => by
      have h1 := tailInv_hgo env avail beh st (buf ++ token) h
      rw [streamLoop]
      by_cases hb : (handle_generation_output env avail beh st (buf ++ token)).2.1 = true
      · rw [if_pos hb]; exact h1
      · rw [if_neg hb]
        exact tailInv_streamLoop env avail beh ts _ _ h1

theorem tailInv_handle_error (beh : Behavior) (emsg : String) {st : AgentState}
    (h : tailInv st.messages) :
    tailInv (handle_error beh emsg st).1.messages := by
  show tailInv (add_feedback_as_user_message _ (complete_current_assistant
    (append_assistant_content ("\nError during execution: " ++ emsg) st.messages)))
  unfold add_feedback_as_user_message
  exact noInc_tailInv (noInc_concat (noInc_CA _ h) (incA_user _ _))

theorem tailInv_iter (env : ToolEnv) (avail : Tools) (beh : Behavior) (maxI it : Nat)
    (st : AgentState) (h : tailInv st.messages) :
    tailInv (process_iteration env avail beh maxI it st).1.messages := by
  have hsl := tailInv_streamLoop env avail beh (beh.gen it st.messages).1 st "" h
  have h2 := tailInv_hgo env avail beh
    (streamLoop env avail beh (beh.gen it st.messages).1 st "").1
    (streamLoop env avail beh (beh.gen it st.messages).1 st "").2.1 hsl
  simp only [process_iteration]
  split
  · exact hsl
  · split
    · exact tailInv_handle_error _ _ hsl
    · split <;> split <;>
        first
          | exact tailInv_append_op _ h2
          | exact h2

theorem capBranch_spec {st : AgentState} (h : tailInv st.messages) :
    ∃ xs a, (capBranch st).1.messages = xs ++ [a] ∧
      (capBranch st).1.messages =
        complete_current_assistant
          (append_assistant_content MAX_ITERATIONS_MESSAGE st.messages) ∧
      a.role = "assistant" ∧ a.completed = true ∧
      (capBranch st).2.1 = RunResult.strRes a.content ∧
      tailInv (capBranch st).1.messages := by
  obtain ⟨xs, a, heq, hxs, hainc, hacomp⟩ := CA_shape MAX_ITERATIONS_MESSAGE h
  have hfields : a.role = "assistant" ∧ a.completed = true := by
    simpa [compA, Bool.and_eq_true] using hacomp
  refine ⟨xs, a, heq, rfl, hfields.1, hfields.2, ?_, ?_⟩
  · show RunResult.strRes (lastContent (complete_current_assistant
      (append_assistant_content MAX_ITERATIONS_MESSAGE st.messages))) = _
    rw [heq, lastContent_concat]
  · show tailInv (complete_current_assistant
      (append_assistant_content MAX_ITERATIONS_MESSAGE st.messages))
    rw [heq]
    exact noInc_tailInv (noInc_concat hxs hainc)

theorem runLoop_spec (env : ToolEnv) (avail : Tools) (beh : Behavior) (maxI : Nat) :
    ∀ (fuel iteration : Nat) (st : AgentState), tailInv st.messages →
    (runLoop env avail beh maxI fuel iteration st).2.2.1 ≤ fuel ∧
    tailInv (runLoop env avail beh maxI fuel iteration st).1.messages ∧
    ((runLoop env avail beh maxI fuel iteration st).2.2.2 = true →
      (runLoop env avail beh maxI fuel iteration st).2.2.1 = fuel ∧
      ∃ mPrev xs a,
        (runLoop env avail beh maxI fuel iteration st).1.messages =
          complete_current_assistant
            (append_assistant_content MAX_ITERATIONS_MESSAGE mPrev) ∧
        (runLoop env avail beh maxI fuel iteration st).1.messages = xs ++ [a] ∧
        a.role = "assistant" ∧ a.completed = true ∧
        (runLoop env avail beh maxI fuel iteration st).2.1 = RunResult.strRes a.content)
  | 0, iteration, st, h => by
      obtain ⟨xs, a, hc1, hc2, hrole, hcompl, hres, hinv⟩ := capBranch_spec h
      exact ⟨Nat.le_refl 0, hinv,
        fun _ => ⟨rfl, st.messages, xs, a, hc2, hc1, hrole, hcompl, hres⟩⟩
  | fuel + 1, iteration, st, h => by
      have hp := tailInv_iter env avail beh maxI (iteration + 1) st h
      cases hout : (process_iteration env avail beh maxI (iteration + 1) st).2 with
      | noneV =>
          have ih := runLoop_spec env avail beh maxI fuel (iteration + 1)
            (process_iteration env avail beh maxI (iteration + 1) st).1 hp
          simp only [runLoop, hout]
          refine ⟨Nat.succ_le_succ ih.1, ih.2.1, fun hcap => ?_⟩
          obtain ⟨hn, mPrev, xs, a, h1, h2, h3, h4, h5⟩ := ih.2.2 hcap
          exact ⟨by rw [hn], mPrev, xs, a, h1, h2, h3, h4, h5⟩
      | falseV =>
          simp only [runLoop, hout]
          exact ⟨Nat.succ_le_succ (Nat.zero_le fuel), hp, fun hcap => by simp at hcap⟩
      | strV s =>
          simp only [runLoop, hout]
          exact ⟨Nat.succ_le_succ (Nat.zero_le fuel), hp, fun hcap => by simp at hcap⟩

theorem tailInv_initial (sysContent instruction : String) :
    tailInv (initialState sysContent instruction).messages := by
  intro x hx
  simp [initialState, add_user_instruction, List.dropLast] at hx
  rw [hx]
  exact incA_system sysContent

theorem pyTruncate_length_le (n : Nat) (s : String) : (pyTruncate n s).length ≤ n := by
  unfold pyTruncate
  split
  · next hgt =>
      show (s.data.take n).length ≤ n
      rw [List.length_take]
      omega
  · next hle => omega

theorem scanAux_lb : ∀ (fuel pos : Nat) (l : List Char),
    ∀ r ∈ scanAux fuel pos l, pos ≤ r.start_pos
  | 0, pos, l => by simp [scanAux]
  | _ + 1, pos, [] => by simp [scanAux]
  | fuel + 1, pos, c :: cs => by
      cases hm : matchAt (c :: cs) with
      | none =>
          rw [scanAux]
          simp only [hm]
          intro r hr
          have := scanAux_lb fuel (pos + 1) cs r hr
          omega
      | some m =>
          obtain ⟨nm, content, rest⟩ := m
          rw [scanAux]
          simp only [hm]
          intro r hr
          rcases List.mem_cons.mp hr with rfl | hr
          · exact Nat.le_refl _
          · have := scanAux_lb fuel (pos + (nm.length + content.length + 8)) rest r hr
            omega

theorem scanAux_pairwise : ∀ (fuel pos : Nat) (l : List Char),
    (scanAux fuel pos l).Pairwise (fun a b => a.start_pos < b.start_pos)
  | 0, _, _ => by simp [scanAux]
  | _ + 1, _, [] => by simp [scanAux]
  | fuel + 1, pos, c :: cs => by
      cases hm : matchAt (c :: cs) with
      | none =>
          rw [scanAux]
          simp only [hm]
          exact scanAux_pairwise fuel (pos + 1) cs
      | some m =>
          obtain ⟨nm, content, rest⟩ := m
          rw [scanAux]
          simp only [hm]
          refine List.pairwise_cons.mpr ⟨?_, scanAux_pairwise fuel _ rest⟩
          intro r hr
          have := scanAux_lb fuel (pos + (nm.length + content.length + 8)) rest r hr
          show pos < r.start_pos
          omega

theorem pairwise_filterMap_lt {f : RawMatch → Option ToolCall}
    (hf : ∀ m c, f m = some c → c.start_pos = m.start_pos) :
    ∀ (l : List RawMatch), l.Pairwise (fun a b => a.start_pos < b.start_pos) →
    (l.filterMap f).Pairwise (fun a b => a.start_pos < b.start_pos)
  | [], _ => by simp
  | m :: l, h => by
      have hh := List.pairwise_cons.mp h
      rw [List.filterMap_cons]
      cases hfm : f m with
      | none => exact pairwise_filterMap_lt hf l hh.2
      | some c =>
          refine List.pairwise_cons.mpr ⟨?_, pairwise_filterMap_lt hf l hh.2⟩
          intro d hd
          obtain ⟨m2, hm2, hfm2⟩ := List.mem_filterMap.mp hd
          rw [hf m c hfm, hf m2 d hfm2]
          exact hh.1 m2 hm2

theorem find_unexecuted_pairwise (executed : ExecutedTable) (text : String) :
    (find_unexecuted_tool_calls executed text).Pairwise
      (fun a b => a.start_pos < b.start_pos) := by
  unfold find_unexecuted_tool_calls finditerToolPattern
  refine pairwise_filterMap_lt ?_ _ (scanAux_pairwise _ _ _)
  intro m c hc
  by_cases hk : hasKey executed (toolId m.start_pos) = true
  · simp [hk] at hc
  · simp only [Bool.not_eq_true] at hk
    simp [hk] at hc
    rw [← hc]

theorem find_unexecuted_head_min {executed : ExecutedTable} {text : String}
    {c : ToolCall} {cs : List ToolCall}
    (h : find_unexecuted_tool_calls executed text = c :: cs) :
    ∀ d ∈ find_unexecuted_tool_calls executed text, c.start_pos ≤ d.start_pos := by
  intro d hd
  have hp := find_unexecuted_pairwise executed text
  rw [h] at hp hd
  rcases List.mem_cons.mp hd with rfl | hd
  · exact Nat.le_refl _
  · exact Nat.le_of_lt ((List.pairwise_cons.mp hp).1 d hd)

theorem check_completion_found {maxI : Nat} {msgs : List Message} {a : Message} {i : Nat}
    (hpos : 0 < maxI) (hlast : lastAssistant msgs = some a)
    (hfind : findSub (pyLower a.content) TASK_COMPLETE_TAG = some i) :
    check_completion maxI msgs =
      some (if pyStrip (String.mk (a.content.data.drop (i + TASK_COMPLETE_TAG.length))) = ""
            then TASK_COMPLETE_DEFAULT_RESULT
            else pyStrip (String.mk (a.content.data.drop (i + TASK_COMPLETE_TAG.length)))) := by
  have hsc : should_continue maxI a.content = false := by
    unfold should_continue containsSub
    rw [hfind]
    simp [hpos]
  have htn : (((i : Nat) : Int) + (TASK_COMPLETE_TAG.length : Int)).toNat =
      i + TASK_COMPLETE_TAG.length := by omega
  unfold check_completion
  simp only [hlast]
  rw [hsc]
  rw [if_neg (by simp : ¬(false = true))]
  simp only [hfind]
  rw [htn]

theorem check_completion_not_found {maxI : Nat} {msgs : List Message} {a : Message}
    (hpos : 0 < maxI) (hlast : lastAssistant msgs = some a)
    (hfind : findSub (pyLower a.content) TASK_COMPLETE_TAG = none) :
    check_completion maxI msgs = none := by
  have hsc : should_continue maxI a.content = true := by
    unfold should_continue containsSub
    rw [hfind]
    simp [hpos]
  simp [check_completion, hlast, hsc]

theorem containsSub_empty_tag : containsSub "" TASK_COMPLETE_TAG = false := by decide

/-! ### Claim theorems -/

/-- C1: evaluation of the scanner at the failing input.  After
`[shell]|||echo a|||` is processed (its marker executes and the agent
resets its buffer), a fresh buffer `[shell]|||echo b|||` holds one
well-formed marker, yet `find_unexecuted_tool_calls` returns nothing and
`process_text` executes nothing, because the new marker's id `tool_0`
collides with the entry left in the never-cleared executed-tools table.
The spec asserts such a marker is still executed. -/
theorem c1_offset_collision_eval :
    (process_text envF availShellOut [] "[shell]|||echo a|||").2.2.1 = true ∧
    (finditerToolPattern "[shell]|||echo b|||").length = 1 ∧
    find_unexecuted_tool_calls
      (process_text envF availShellOut [] "[shell]|||echo a|||").1
      "[shell]|||echo b|||" = [] ∧
    (process_text envF availShellOut
      (process_text envF availShellOut [] "[shell]|||echo a|||").1
      "[shell]|||echo b|||").2.2.1 = false := by
  decide

/-- C2 counterexample: with a model that raises `boom` and an iteration cap
of 3, the run does not continue into further iterations: it returns after
one iteration with the feedback critic's response as its result. -/
theorem c2_counterexample :
    run envF availNone behBoom 3 "S" "task" =
      (⟨[⟨"system", "S", false, false⟩, ⟨"user", "task", false, false⟩,
         ⟨"assistant", "\nError during execution: boom", true, false⟩,
         ⟨"user", "FB", false, false⟩], []⟩,
       RunResult.strRes "FB", 1, false) := by decide

/-- C2 (amended): for every exception raised by the model runner during
generation (after any tool-free prefix of tokens), the agent appends the
synthetic continuation `\nError during execution: <message>` to the
assistant turn, completes it, invokes the feedback critic, appends its
response as a new user turn — and the run then ends immediately, returning
the feedback message's content after that single iteration. -/
theorem c2_error_handling (env : ToolEnv) (avail : Tools) (beh : Behavior)
    (maxI fuel iteration : Nat) (st : AgentState) (ts : List String) (emsg : String)
    (hgen : beh.gen (iteration + 1) st.messages = (ts, some emsg))
    (hnotool : (streamLoop env avail beh ts st "").2.2 = false) :
    runLoop env avail beh maxI (fuel + 1) iteration st =
      ({ messages := add_feedback_as_user_message
            (beh.feedback (complete_current_assistant (append_assistant_content
              ("\nError during execution: " ++ emsg)
              (streamLoop env avail beh ts st "").1.messages)))
            (complete_current_assistant (append_assistant_content
              ("\nError during execution: " ++ emsg)
              (streamLoop env avail beh ts st "").1.messages)),
         executed := (streamLoop env avail beh ts st "").1.executed },
       RunResult.strRes (beh.feedback (complete_current_assistant (append_assistant_content
         ("\nError during execution: " ++ emsg)
         (streamLoop env avail beh ts st "").1.messages))),
       1, false) := by
  have h1 : process_iteration env avail beh maxI (iteration + 1) st =
      ((handle_error beh emsg (streamLoop env avail beh ts st "").1).1,
        IterOutcome.strV (handle_error beh emsg (streamLoop env avail beh ts st "").1).2) := by
    unfold process_iteration
    simp only [hgen]
    rw [hnotool]
    rw [if_neg (by simp : ¬(false = true))]
  simp only [runLoop, h1]
  unfold handle_error
  simp only [lastContent_add_feedback]

/-- C2 amended witness: the general theorem applied to the concrete raising
behavior, then evaluated. -/
theorem c2_error_handling_witness :
    runLoop envF availNone behBoom 3 3 0 (initialState "S" "task") =
      ({ messages := [⟨"system", "S", false, false⟩, ⟨"user", "task", false, false⟩,
          ⟨"assistant", "\nError during execution: boom", true, false⟩,
          ⟨"user", "FB", false, false⟩], executed := [] },
       RunResult.strRes "FB", 1, false) :=
  (c2_error_handling envF availNone behBoom 3 2 0 (initialState "S" "task") [] "boom"
    rfl rfl).trans (by decide)

/-- C3 counterexample: on the stream `okay [shell]|||echo hi||| done` the
assistant entry recorded in the log is the raw buffer, and no entry of the
log carries the claimed buffer-with-output-appended content. -/
theorem c3_counterexample :
    ((handle_generation_output envF availShellHi behFB (initialState "S" "task")
        "okay [shell]|||echo hi||| done").1.messages.map (fun m => (m.role, m.content)) =
      [("system", "S"), ("user", "task"),
       ("assistant", "okay [shell]|||echo hi||| done"),
       ("user", "shell output:\n<<< hi >>>"), ("user", "FB")]) ∧
    (∀ m ∈ (handle_generation_output envF availShellHi behFB (initialState "S" "task")
        "okay [shell]|||echo hi||| done").1.messages,
      m.content ≠ "okay [shell]|||echo hi||| done\nshell output:\n<<< hi >>>") := by
  decide

/-- C3 (amended): when a tool call is detected and executed, the assistant
entry recorded for the turn is the raw streamed buffer (without the tool
output appended, since `handle_generation_output` passes the original
`token_buffer` and discards the updated buffer); it is marked completed,
the user message `shell output:\n<<< hi >>>` is appended right after it,
followed by the feedback user message. -/
theorem c3_assistant_entry :
    handle_generation_output envF availShellHi behFB (initialState "S" "task")
        "okay [shell]|||echo hi||| done" =
      ({ messages := [⟨"system", "S", false, false⟩, ⟨"user", "task", false, false⟩,
          ⟨"assistant", "okay [shell]|||echo hi||| done", true, false⟩,
          ⟨"user", "shell output:\n<<< hi >>>", false, true⟩,
          ⟨"user", "FB", false, false⟩],
         executed := [("tool_5",
           ⟨"tool_5", "shell", "echo hi", 5, 25, some "<<< hi >>>", true⟩)] },
       true, "") := by
  decide

/-- C4: for every positive iteration cap and every model behavior, the run
executes at most `max_iterations` iterations; and when the cap branch runs
(the loop executed `max_iterations` iterations without completing), the
fixed maximum-iterations notice is appended to the current assistant
entry, that entry is completed, and the run returns the final assistant
entry's content. -/
theorem c4_iteration_cap (env : ToolEnv) (avail : Tools) (beh : Behavior)
    (max_iterations : Nat) (sysContent instruction : String)
    (hpos : 0 < max_iterations) :
    (run env avail beh max_iterations sysContent instruction).2.2.1 ≤ max_iterations ∧
    ((run env avail beh max_iterations sysContent instruction).2.2.2 = true →
      (run env avail beh max_iterations sysContent instruction).2.2.1 = max_iterations ∧
      ∃ mPrev xs a,
        (run env avail beh max_iterations sysContent instruction).1.messages =
          complete_current_assistant
            (append_assistant_content MAX_ITERATIONS_MESSAGE mPrev) ∧
        (run env avail beh max_iterations sysContent instruction).1.messages = xs ++ [a] ∧
        a.role = "assistant" ∧ a.completed = true ∧
        (run env avail beh max_iterations sysContent instruction).2.1 =
          RunResult.strRes a.content) := by
  have h := runLoop_spec env avail beh max_iterations max_iterations 0
    (initialState sysContent instruction) (tailInv_initial sysContent instruction)
  exact ⟨h.1, h.2.2⟩

/-- C4 witness: the theorem applied to the silent model with cap 2 (where
the cap branch actually runs). -/
theorem c4_witness :
    0 < 2 ∧
    ((run envF availNone behFB 2 "S" "task").2.2.1 ≤ 2 ∧
     ((run envF availNone behFB 2 "S" "task").2.2.2 = true →
       (run envF availNone behFB 2 "S" "task").2.2.1 = 2 ∧
       ∃ mPrev xs a,
         (run envF availNone behFB 2 "S" "task").1.messages =
           complete_current_assistant
             (append_assistant_content MAX_ITERATIONS_MESSAGE mPrev) ∧
         (run envF availNone behFB 2 "S" "task").1.messages = xs ++ [a] ∧
         a.role = "assistant" ∧ a.completed = true ∧
         (run envF availNone behFB 2 "S" "task").2.1 = RunResult.strRes a.content)) :=
  ⟨by decide, c4_iteration_cap envF availNone behFB 2 "S" "task" (by decide)⟩

/-- C5: `process_text` scans the buffer; with no unexecuted calls it
returns the buffer unchanged, `false` and no call, leaving the executed
table untouched; with unexecuted calls it executes exactly the first one
(the one with the smallest start offset among them), marks exactly that
one executed, and returns the buffer with `\n<name> output:\n<<< ... >>>`
appended together with `true` and that call. -/
theorem c5_process_text_spec (env : ToolEnv) (avail : Tools) (executed : ExecutedTable)
    (text : String) :
    (find_unexecuted_tool_calls executed text = [] →
      process_text env avail executed text = (executed, text, false, none)) ∧
    (∀ c cs, find_unexecuted_tool_calls executed text = c :: cs →
      (∀ d ∈ find_unexecuted_tool_calls executed text, c.start_pos ≤ d.start_pos) ∧
      process_text env avail executed text =
        ((c.id, { c with output := some (execute_tool env avail c), executed := true })
            :: executed,
         text ++ "\n" ++ c.name ++ " output:\n" ++ execute_tool env avail c,
         true,
         some { c with output := some (execute_tool env avail c), executed := true })) := by
  constructor
  · intro hnil
    unfold process_text
    rw [hnil]
  · intro c cs hcons
    refine ⟨find_unexecuted_head_min hcons, ?_⟩
    unfold process_text
    rw [hcons]

/-- C5 witness: applied to a buffer with one pending marker and evaluated. -/
theorem c5_witness :
    find_unexecuted_tool_calls [] "x [shell]|||echo hi||| y" = [c5demo] ∧
    ((∀ d ∈ find_unexecuted_tool_calls [] "x [shell]|||echo hi||| y",
        c5demo.start_pos ≤ d.start_pos) ∧
     process_text envF availShellHi [] "x [shell]|||echo hi||| y" =
       ([("tool_2", { c5demo with output := some "<<< hi >>>", executed := true })],
        "x [shell]|||echo hi||| y\nshell output:\n<<< hi >>>", true,
        some { c5demo with output := some "<<< hi >>>", executed := true })) := by
  refine ⟨by decide, ?_⟩
  have h := (c5_process_text_spec envF availShellHi [] "x [shell]|||echo hi||| y").2
    c5demo [] (by decide)
  exact ⟨h.1, h.2.trans (by decide)⟩

/-- C6: on every path (success, unknown name, argument-resolution failure,
raised tool exception) `execute_tool` returns exactly `<<< ` ++ inner ++
` >>>` with `inner` at most 1000 characters; on success `inner` is the
tool's result trimmed (truncated to 1000), or the literal `no output` when
the result is the empty string, and on the error paths it is the
corresponding error message (truncated) — the identical surface form.
`execute_tool` is a total function: no path raises. -/
theorem c6_output_envelope (env : ToolEnv) (avail : Tools) (tc : ToolCall) :
    ∃ inner : String,
      execute_tool env avail tc = "<<< " ++ inner ++ " >>>" ∧
      inner.length ≤ 1000 ∧
      (∀ f, avail tc.name = some f →
        (∀ args out, resolveArgs env tc.name tc.content = Except.ok args →
          f args = Except.ok out →
          inner = pyTruncate 1000 (if out = "" then "no output" else pyStrip out)) ∧
        (∀ args e, resolveArgs env tc.name tc.content = Except.ok args →
          f args = Except.error e →
          inner = pyTruncate 1000 ("Error executing tool " ++ tc.name ++ ": " ++ e)) ∧
        (∀ m, resolveArgs env tc.name tc.content = Except.error m →
          inner = pyTruncate 1000 ("Error executing tool " ++ tc.name ++ ": " ++ m))) ∧
      (avail tc.name = none →
        inner = pyTruncate 1000 ("Error: Function " ++ tc.name ++ " not found")) := by
  cases ha : avail tc.name with
  | none =>
      have hexec : execute_tool env avail tc =
          "<<< " ++ pyTruncate 1000 ("Error: Function " ++ tc.name ++ " not found") ++ " >>>" := by
        simp only [execute_tool, ha]
      refine ⟨pyTruncate 1000 ("Error: Function " ++ tc.name ++ " not found"),
        hexec, pyTruncate_length_le _ _, ?_, fun _ => rfl⟩
      intro f hf
      exact Option.noConfusion hf
  | some f0 =>
      cases hr : resolveArgs env tc.name tc.content with
      | error m0 =>
          have hexec : execute_tool env avail tc =
              "<<< " ++ pyTruncate 1000 ("Error executing tool " ++ tc.name ++ ": " ++ m0)
                ++ " >>>" := by
            simp only [execute_tool, ha, hr]
          refine ⟨pyTruncate 1000 ("Error executing tool " ++ tc.name ++ ": " ++ m0),
            hexec, pyTruncate_length_le _ _, ?_, ?_⟩
          · intro f hf
            injection hf with hf
            subst hf
            refine ⟨?_, ?_, ?_⟩
            · intro args out hra _
              exact Except.noConfusion hra
            · intro args e hra _
              exact Except.noConfusion hra
            · intro m hrm
              injection hrm with hrm
              rw [hrm]
          · intro hnone
            exact Option.noConfusion hnone
      | ok args0 =>
          cases hc : f0 args0 with
          | ok out0 =>
              have hexec : execute_tool env avail tc =
                  "<<< " ++ pyTruncate 1000 (if out0 = "" then "no output" else pyStrip out0)
                    ++ " >>>" := by
                simp only [execute_tool, ha, hr, hc]
              refine ⟨pyTruncate 1000 (if out0 = "" then "no output" else pyStrip out0),
                hexec, pyTruncate_length_le _ _, ?_, ?_⟩
              · intro f hf
                injection hf with hf
                subst hf
                refine ⟨?_, ?_, ?_⟩
                · intro args out hra hco
                  injection hra with hra
                  subst hra
                  rw [hc] at hco
                  injection hco with hco
                  rw [hco]
                · intro args e hra hce
                  injection hra with hra
                  subst hra
                  rw [hc] at hce
                  exact Except.noConfusion hce
                · intro m hrm
                  exact Except.noConfusion hrm
              · intro hnone
                exact Option.noConfusion hnone
          | error e0 =>
              have hexec : execute_tool env avail tc =
                  "<<< " ++ pyTruncate 1000 ("Error executing tool " ++ tc.name ++ ": " ++ e0)
                    ++ " >>>" := by
                simp only [execute_tool, ha, hr, hc]
              refine ⟨pyTruncate 1000 ("Error executing tool " ++ tc.name ++ ": " ++ e0),
                hexec, pyTruncate_length_le _ _, ?_, ?_⟩
              · intro f hf
                injection hf with hf
                subst hf
                refine ⟨?_, ?_, ?_⟩
                · intro args out hra hco
                  injection hra with hra
                  subst hra
                  rw [hc] at hco
                  exact Except.noConfusion hco
                · intro args e hra hce
                  injection hra with hra
                  subst hra
                  rw [hc] at hce
                  injection hce with hce
                  rw [hce]
                · intro m hrm
                  exact Except.noConfusion hrm
              · intro hnone
                exact Option.noConfusion hnone

/-- C6 witness: the envelope property at a concrete successful call. -/
theorem c6_witness :
    ∃ inner : String,
      execute_tool envF availShellHi tcDemo = "<<< " ++ inner ++ " >>>" ∧
      inner.length ≤ 1000 ∧
      (∀ f, availShellHi tcDemo.name = some f →
        (∀ args out, resolveArgs envF tcDemo.name tcDemo.content = Except.ok args →
          f args = Except.ok out →
          inner = pyTruncate 1000 (if out = "" then "no output" else pyStrip out)) ∧
        (∀ args e, resolveArgs envF tcDemo.name tcDemo.content = Except.ok args →
          f args = Except.error e →
          inner = pyTruncate 1000 ("Error executing tool " ++ tcDemo.name ++ ": " ++ e)) ∧
        (∀ m, resolveArgs envF tcDemo.name tcDemo.content = Except.error m →
          inner = pyTruncate 1000 ("Error executing tool " ++ tcDemo.name ++ ": " ++ m))) ∧
      (availShellHi tcDemo.name = none →
        inner = pyTruncate 1000 ("Error: Function " ++ tcDemo.name ++ " not found")) :=
  c6_output_envelope envF availShellHi tcDemo

/-- C7: the completion predicate lowercases the latest assistant entry's
content and searches it for the literal sentinel `[task_complete]`; with a
positive iteration budget, when the sentinel occurs (first occurrence at
index `i`) `check_completion` returns the original content after the
sentinel, trimmed, or the default `Task completed successfully` when that
remainder trims to empty; when the sentinel is absent it returns nothing
and the run continues. -/
theorem c7_completion_predicate (max_iterations : Nat) (msgs : List Message) (a : Message)
    (hpos : 0 < max_iterations) (hlast : lastAssistant msgs = some a) :
    (∀ i, findSub (pyLower a.content) TASK_COMPLETE_TAG = some i →
      check_completion max_iterations msgs =
        some (if pyStrip (String.mk (a.content.data.drop (i + TASK_COMPLETE_TAG.length))) = ""
              then TASK_COMPLETE_DEFAULT_RESULT
              else pyStrip (String.mk
                (a.content.data.drop (i + TASK_COMPLETE_TAG.length))))) ∧
    (findSub (pyLower a.content) TASK_COMPLETE_TAG = none →
      check_completion max_iterations msgs = none) :=
  ⟨fun _ hf => check_completion_found hpos hlast hf,
   fun hf => check_completion_not_found hpos hlast hf⟩

/-- C7 witness: mixed-case sentinel with padded result text extracts `42`. -/
theorem c7_witness :
    0 < 5 ∧
    lastAssistant [⟨"assistant", "ok [Task_COMPLETE]  42 ", true, false⟩] =
      some ⟨"assistant", "ok [Task_COMPLETE]  42 ", true, false⟩ ∧
    findSub (pyLower "ok [Task_COMPLETE]  42 ") TASK_COMPLETE_TAG = some 3 ∧
    check_completion 5 [⟨"assistant", "ok [Task_COMPLETE]  42 ", true, false⟩] =
      some "42" := by
  refine ⟨by decide, by decide, by decide, ?_⟩
  have h := (c7_completion_predicate 5
    [⟨"assistant", "ok [Task_COMPLETE]  42 ", true, false⟩]
    ⟨"assistant", "ok [Task_COMPLETE]  42 ", true, false⟩
    (by decide) (by decide)).1 3 (by decide)
  exact h.trans (by decide)

/-- C8: in every log state reachable through the agent's operations, at
most one assistant entry is incomplete and only the final entry of the log
can be it (so the incomplete assistant is always trailing), and every
tool-output user message is strictly preceded by a completed assistant
entry. -/
theorem c8_log_invariants {msgs : List Message} (h : Reachable msgs) :
    ((msgs.filter incA).length ≤ 1) ∧ tailInv msgs ∧ toolPrecB false msgs = true := by
  have hi := reachable_inv h
  refine ⟨?_, hi.1, hi.2⟩
  rcases tailInv_cases hi.1 with ⟨xs, a, rfl, _, hxs⟩ | hni
  · rw [List.filter_append]
    have hx : xs.filter incA = [] :=
      List.filter_eq_nil_iff.mpr (by intro x hx; simp [hxs x hx])
    rw [hx]
    cases hfa : incA a <;> simp [List.filter_cons, hfa]
  · have hx : msgs.filter incA = [] :=
      List.filter_eq_nil_iff.mpr (by intro x hx; simp [hni x hx])
    rw [hx]
    simp

/-- C8 witness: the invariants at a concrete reachable log (a full tool
cycle on top of the seeded conversation). -/
theorem c8_witness :
    ((c8demoLog.filter incA).length ≤ 1) ∧ tailInv c8demoLog ∧
      toolPrecB false c8demoLog = true :=
  c8_log_invariants
    (Reachable.toolFb "FB" "shell" "<<< hi >>>" "okay" (Reachable.instruct "S" "task"))

/-- C9 counterexample: on the log `[assistant (incomplete), user]` — whose
trailing entry is a user message — `append_assistant_content` extends the
earlier incomplete assistant entry in place instead of appending a new
assistant entry at the end as the claim requires. -/
theorem c9_counterexample :
    append_assistant_content "B"
        [⟨"assistant", "A", false, false⟩, ⟨"user", "U", false, false⟩] =
      [⟨"assistant", "AB", false, false⟩, ⟨"user", "U", false, false⟩] ∧
    append_assistant_content "B"
        [⟨"assistant", "A", false, false⟩, ⟨"user", "U", false, false⟩] ≠
      [⟨"assistant", "A", false, false⟩, ⟨"user", "U", false, false⟩,
       ⟨"assistant", "B", false, false⟩] := by
  decide

/-- C9 (amended): `append_assistant_content t` extends the content of the
log's last assistant entry in place whenever that entry has
`completed = false` — even when non-assistant entries follow it — and in
every other case (no assistant entry, or the last assistant entry
completed) appends a new `{assistant, t, completed = false}` entry at the
end of the log. -/
theorem c9_append_assistant (t : String) :
    (∀ msgs : List Message, (∀ x ∈ msgs, (x.role == "assistant") = false) →
      append_assistant_content t msgs = msgs ++ [mkAssistant t]) ∧
    (∀ (xs : List Message) (m : Message) (ys : List Message),
      (m.role == "assistant") = true → (∀ y ∈ ys, (y.role == "assistant") = false) →
      append_assistant_content t (xs ++ m :: ys) =
        (if m.completed then xs ++ m :: (ys ++ [mkAssistant t])
         else xs ++ { m with content := m.content ++ t } :: ys)) := by
  constructor
  · intro msgs
    induction msgs with
    | nil => intro _; simp [append_assistant_content]
    | cons m0 rest ih =>
        intro h
        have h0 : (m0.role == "assistant") = false := h m0 (List.mem_cons_self m0 rest)
        rw [append_assistant_content]
        rw [if_neg (by simp [h0])]
        rw [ih (fun x hx => h x (List.mem_cons_of_mem m0 hx))]
        simp
  · intro xs
    induction xs with
    | nil =>
        intro m ys hm hys
        have hany : anyAssistant ys = false := anyAssistant_eq_false.mpr hys
        show append_assistant_content t (m :: ys) = _
        rw [append_assistant_content]
        rw [if_pos (by simp [hm, hany])]
        by_cases hc : m.completed
        · rw [if_neg (by simp [hc]), if_pos hc]
          simp
        · rw [if_pos (by simp [hc]), if_neg hc]
          simp
    | cons x xs ih =>
        intro m ys hm hys
        have hany : anyAssistant (xs ++ m :: ys) = true := by
          simp [anyAssistant, List.any_append, List.any_cons, hm]
        show append_assistant_content t (x :: (xs ++ m :: ys)) = _
        rw [append_assistant_content]
        rw [if_neg (by simp [hany])]
        rw [ih m ys hm hys]
        by_cases hc : m.completed <;> simp [hc]

/-- C9 amended witness: the amended rule applied to the counterexample
log — the incomplete assistant before a trailing user message is extended
in place. -/
theorem c9_append_assistant_witness :
    append_assistant_content "B"
        [⟨"assistant", "A", false, false⟩, ⟨"user", "U", false, false⟩] =
      [⟨"assistant", "AB", false, false⟩, ⟨"user", "U", false, false⟩] := by
  have h := (c9_append_assistant "B").2 [] ⟨"assistant", "A", false, false⟩
    [⟨"user", "U", false, false⟩] (by decide) (by decide)
  exact h.trans (by decide)

/-- C10: when the latest assistant entry contains the sentinel more than
once (case-insensitively), the completion result is the trimmed text after
the first occurrence, so the later occurrence appears verbatim inside the
returned result. -/
theorem c10_first_occurrence (max_iterations : Nat) (msgs : List Message) (a : Message)
    (i : Nat) (hpos : 0 < max_iterations) (hlast : lastAssistant msgs = some a)
    (hfind : findSub (pyLower a.content) TASK_COMPLETE_TAG = some i)
    (hagain : containsSub (pyStrip (String.mk
      (a.content.data.drop (i + TASK_COMPLETE_TAG.length)))) TASK_COMPLETE_TAG = true) :
    check_completion max_iterations msgs =
      some (pyStrip (String.mk (a.content.data.drop (i + TASK_COMPLETE_TAG.length)))) ∧
    containsSub (pyStrip (String.mk (a.content.data.drop (i + TASK_COMPLETE_TAG.length))))
      TASK_COMPLETE_TAG = true := by
  have h := check_completion_found hpos hlast hfind
  have hne : pyStrip (String.mk (a.content.data.drop (i + TASK_COMPLETE_TAG.length))) ≠ "" := by
    intro he
    rw [he, containsSub_empty_tag] at hagain
    cases hagain
  rw [if_neg hne] at h
  exact ⟨h, hagain⟩

/-- C10 witness: two sentinels; the result is everything after the first,
with the second left verbatim inside it. -/
theorem c10_witness :
    0 < 5 ∧
    lastAssistant [⟨"assistant", "[task_complete] b [task_complete] c", false, false⟩] =
      some ⟨"assistant", "[task_complete] b [task_complete] c", false, false⟩ ∧
    findSub (pyLower "[task_complete] b [task_complete] c") TASK_COMPLETE_TAG = some 0 ∧
    check_completion 5 [⟨"assistant", "[task_complete] b [task_complete] c", false, false⟩] =
      some "b [task_complete] c" := by
  refine ⟨by decide, by decide, by decide, ?_⟩
  have h := c10_first_occurrence 5
    [⟨"assistant", "[task_complete] b [task_complete] c", false, false⟩]
    ⟨"assistant", "[task_complete] b [task_complete] c", false, false⟩ 0
    (by decide) (by decide) (by decide) (by decide)
  exact h.1.trans (by decide)

end LlmAgent
